import Mathlib

/-!
Verification of the bitblock-parser repository (a Python reader for Bitcoin
block files) against its natural-language specification.

Bytes are modelled as `List Nat` (each element a byte value), fallible code
as `Option`-returning functions, and Python's lazy attribute computations as
plain functions of the decoded structures.  Every definition below is a
shallow embedding of the corresponding function in `src/blockchain_parser`.
-/

/-- Little-endian interpretation of a byte list (`struct.unpack` with formats
`<H`, `<I`, `<Q` applied to an exact-length slice). -/
def leNat : List Nat → Nat
  | [] => 0
  | b :: rest => b + 256 * leNat rest

/-- Embedding of `utils.varint` (the standard Bitcoin compact-size varint).
Returns `(value, bytes_consumed)`, or `none` where the Python raises
(`ValueError` on empty data or a first byte above 255, `struct.error` when
the multi-byte payload is shorter than the format requires). -/
def varint (data : List Nat) : Option (Nat × Nat) :=
  match data with
  | [] => none
  | b :: rest =>
    if 255 < b then none
    else if b < 253 then some (b, 1)
    else
      let k : Nat := if b = 253 then 2 else if b = 254 then 4 else 8
      if rest.length < k then none
      else some (leNat (rest.take k), k + 1)

/-- Loop body of `index._leveldb_varint`: accumulator `n`, bytes consumed so
far `pos`, remaining buffer.  `none` models the `IndexError` raised when the
buffer ends before a terminating byte (high bit clear). -/
def leveldbVarintAux (n : Nat) (pos : Nat) : List Nat → Option (Nat × Nat)
  | [] => none
  | d :: rest =>
    let n2 : Nat := (n <<< 7) ||| (d &&& 0x7f)
    if d &&& 0x80 = 0 then some (n2, pos + 1)
    else leveldbVarintAux (n2 + 1) (pos + 1) rest

/-- Embedding of `index._leveldb_varint` (the non-standard varint used in the
node's own index database).  Returns `(value, bytes_consumed)`. -/
def leveldb_varint (data : List Nat) : Option (Nat × Nat) :=
  leveldbVarintAux 0 0 data

/-- One step of the leveldb-varint accumulation, as the specification
describes it: `n := (n << 7) | (d & 0x7f)`, plus one more when the high bit
of `d` is set. -/
def leveldbStep (n d : Nat) : Nat :=
  if d &&& 0x80 = 0 then (n <<< 7) ||| (d &&& 0x7f)
  else ((n <<< 7) ||| (d &&& 0x7f)) + 1

theorem leveldbVarintAux_spec (pre : List Nat) (d : Nat) (rest : List Nat)
    (hpre : ∀ x ∈ pre, x &&& 0x80 ≠ 0) (hd : d &&& 0x80 = 0) :
    ∀ n pos, leveldbVarintAux n pos (pre ++ d :: rest) =
      some (List.foldl leveldbStep n (pre ++ [d]), pos + pre.length + 1) := by
  induction pre with
  | nil =>
    intro n pos
    simp [leveldbVarintAux, leveldbStep, hd]
  | cons x xs ih =>
    intro n pos
    have hx : x &&& 0x80 ≠ 0 := hpre x (by simp)
    have ih' := ih (fun y hy => hpre y (by simp [hy]))
    simp only [List.cons_append, leveldbVarintAux, if_neg hx, List.append_eq]
    rw [ih']
    simp [leveldbStep, if_neg hx, List.foldl_cons]
    omega

/-- C3: the compact-size varint decoder returns the first byte with 1 byte
consumed when it is below 0xfd, the next 2 bytes little-endian with 3
consumed on 0xfd, the next 4 little-endian with 5 consumed on 0xfe, the next
8 little-endian with 9 consumed on 0xff; in particular `[0xfc]` decodes to
`(252,1)`, `[0xfd 0xfd 0x00]` to `(253,3)`, `[0xfe 0x00 0x00 0x01 0x00]` to
`(65536,5)` and `[0xff 0x00 0x00 0x00 0x00 0x01 0x00 0x00 0x00]` to
`(2^32, 9)`. -/
theorem varint_compact_size_spec :
    (∀ b rest, b < 253 → varint (b :: rest) = some (b, 1)) ∧
    (∀ b0 b1 rest, varint (253 :: b0 :: b1 :: rest) = some (b0 + 256 * b1, 3)) ∧
    (∀ b0 b1 b2 b3 rest, varint (254 :: b0 :: b1 :: b2 :: b3 :: rest) =
      some (b0 + 256 * b1 + 65536 * b2 + 16777216 * b3, 5)) ∧
    (∀ b0 b1 b2 b3 b4 b5 b6 b7 rest,
      varint (255 :: b0 :: b1 :: b2 :: b3 :: b4 :: b5 :: b6 :: b7 :: rest) =
      some (b0 + 256 * b1 + 65536 * b2 + 16777216 * b3 + 4294967296 * b4 +
        1099511627776 * b5 + 281474976710656 * b6 + 72057594037927936 * b7, 9)) ∧
    varint [252] = some (252, 1) ∧
    varint [253, 253, 0] = some (253, 3) ∧
    varint [254, 0, 0, 1, 0] = some (65536, 5) ∧
    varint [255, 0, 0, 0, 0, 1, 0, 0, 0] = some (4294967296, 9) := by
  refine ⟨?_, ?_, ?_, ?_, by decide, by decide, by decide, by decide⟩
  · intro b rest hb
    have h1 : ¬ 255 < b := by omega
    simp [varint, h1, hb]
  · intro b0 b1 rest
    simp [varint, leNat]
    try ring
  · intro b0 b1 b2 b3 rest
    simp [varint, leNat]
    try ring
  · intro b0 b1 b2 b3 b4 b5 b6 b7 rest
    simp [varint, leNat]
    try ring

/-- Closed witness for C3: the general cases of `varint_compact_size_spec`
evaluated at concrete byte buffers. -/
theorem varint_compact_size_spec_witness :
    varint (250 :: [7]) = some (250, 1) ∧
    varint (253 :: 1 :: 2 :: []) = some (1 + 256 * 2, 3) :=
  ⟨varint_compact_size_spec.1 250 [7] (by decide),
   varint_compact_size_spec.2.1 1 2 []⟩

/-- C4: the index-db varint decoder folds `n := (n << 7) | (d & 0x7f)` over
successive bytes, adds 1 after every byte with the high bit set, stops at the
first byte with the high bit clear, and returns `(value, bytes_consumed)`;
in particular `[0xb9 0x40]` decodes to `(7488, 2)`. -/
theorem leveldb_varint_spec :
    (∀ pre d rest, (∀ x ∈ pre, x &&& 0x80 ≠ 0) → d &&& 0x80 = 0 →
      leveldb_varint (pre ++ d :: rest) =
        some (List.foldl leveldbStep 0 (pre ++ [d]), pre.length + 1)) ∧
    leveldb_varint [0xb9, 0x40] = some (7488, 2) := by
  constructor
  · intro pre d rest hpre hd
    have h := leveldbVarintAux_spec pre d rest hpre hd 0 0
    simpa [leveldb_varint] using h
  · decide

/-- Closed witness for C4: `leveldb_varint_spec` applied to the concrete
buffer `[0xb9, 0x40]`. -/
theorem leveldb_varint_spec_witness :
    leveldb_varint ([0xb9] ++ 0x40 :: []) =
      some (List.foldl leveldbStep 0 ([0xb9] ++ [0x40]), 2) := by
  have h := leveldb_varint_spec.1 [0xb9] 0x40 []
    (by intro x hx; simp at hx; subst hx; decide) (by decide)
  simpa using h

/-- One script operation as yielded by the cooked CScript iteration used by
`Script.operations`: opcode items are Python ints (small ints OP_0..OP_16
decode to 0..16; any other opcode is a CScriptOp, an int subclass compared
by integer value), data pushes are byte strings. -/
inductive ScriptItem where
  | num (n : Nat)
  | push (bs : List Nat)
deriving DecidableEq, Repr

/-- Push-length header of CScript.raw_iter for an opcode ≤ OP_PUSHDATA4:
returns `(datasize, header_bytes_consumed)`, or `none` when the length
header itself is truncated (CScriptInvalidError). -/
def pushHeader (op : Nat) (rest : List Nat) : Option (Nat × Nat) :=
  if op < 0x4c then some (op, 0)
  else if op = 0x4c then
    match rest[0]? with
    | some l0 => some (l0, 1)
    | none => none
  else if op = 0x4d then
    match rest[0]?, rest[1]? with
    | some l0, some l1 => some (l0 + 256 * l1, 2)
    | _, _ => none
  else
    match rest[0]?, rest[1]?, rest[2]?, rest[3]? with
    | some l0, some l1, some l2, some l3 =>
      some (l0 + 256 * l1 + 65536 * l2 + 16777216 * l3, 4)
    | _, _, _, _ => none

/-- Embedding of CScript iteration (`list(self.script)`): `none` models
CScriptInvalidError / CScriptTruncatedPushDataError on a malformed push;
opcode 0 yields the int 0, OP_1..OP_16 yield 1..16, other non-push opcodes
yield their opcode value, pushes yield their data bytes. -/
def decodeOpsFuel : Nat → List Nat → Option (List ScriptItem)
  | _, [] => some []
  | 0, _ :: _ => none
  | fuel + 1, op :: rest =>
    if op ≤ 0x4e then
      match pushHeader op rest with
      | none => none
      | some (sz, hdr) =>
        if sz ≤ (rest.drop hdr).length then
          match decodeOpsFuel fuel ((rest.drop hdr).drop sz) with
          | none => none
          | some ops =>
            some ((if op = 0 then ScriptItem.num 0
                   else ScriptItem.push ((rest.drop hdr).take sz)) :: ops)
        else none
    else
      match decodeOpsFuel fuel rest with
      | none => none
      | some ops =>
        some ((if 0x51 ≤ op ∧ op ≤ 0x60 then ScriptItem.num (op - 0x50)
               else ScriptItem.num op) :: ops)

/-- Entry point for the iteration: every loop step consumes at least the one
opcode byte, so a fuel of the script length never runs out (the fuel-0
fallback of `decodeOpsFuel` is unreachable). -/
def decodeOps (l : List Nat) : Option (List ScriptItem) :=
  decodeOpsFuel l.length l

/-- Embedding of script.is_public_key: a 65-byte push with prefix 0x04 or a
33-byte push with prefix 0x02/0x03; anything that is not bytes is rejected. -/
def is_public_key : ScriptItem → Bool
  | ScriptItem.push bs =>
    (decide (bs.length = 65) && (bs[0]? == some 4)) ||
    (decide (bs.length = 33) && ((bs[0]? == some 2) || (bs[0]? == some 3)))
  | ScriptItem.num _ => false

/-- Script.is_pubkeyhash; `none` models the IndexError raised when the
operations list has fewer than 2 elements (operations[1] / operations[-2]
are evaluated unconditionally). -/
def is_pubkeyhash (raw : List Nat) (ops : List ScriptItem) : Option Bool :=
  if ops.length < 2 then none
  else some (decide (raw.length = 25)
    && (ops[0]? == some (ScriptItem.num 118))
    && (ops[1]? == some (ScriptItem.num 169))
    && (ops[ops.length - 2]? == some (ScriptItem.num 136))
    && (ops[ops.length - 1]? == some (ScriptItem.num 172)))

/-- Script.is_pubkey; `none` models the IndexError raised on an empty
operations list (operations[-1] / operations[0] evaluated unconditionally). -/
def is_pubkey (ops : List ScriptItem) : Option Bool :=
  if ops.length < 1 then none
  else some (decide (ops.length = 2)
    && (ops[ops.length - 1]? == some (ScriptItem.num 172))
    && (match ops[0]? with
        | some it => is_public_key it
        | none => false))

/-- CScript.is_p2sh: 23 raw bytes, OP_HASH160, a 0x14 push header, OP_EQUAL. -/
def is_p2sh (raw : List Nat) : Bool :=
  decide (raw.length = 23) && (raw[0]? == some 0xa9) && (raw[1]? == some 0x14)
    && (raw[22]? == some 0x87)

/-- CScript.is_witness_v0_keyhash. -/
def is_p2wpkh (raw : List Nat) : Bool :=
  decide (raw.length = 22) && (raw.take 2 == [0x00, 0x14])

/-- CScript.is_witness_v0_scripthash. -/
def is_p2wsh (raw : List Nat) : Bool :=
  decide (raw.length = 34) && (raw.take 2 == [0x00, 0x20])

/-- CScript.is_unspendable: leading OP_RETURN, or script longer than
MAX_SCRIPT_SIZE (10000 bytes). -/
def is_return (raw : List Nat) : Bool :=
  ((decide (0 < raw.length)) && (raw[0]? == some 0x6a)) || decide (10000 < raw.length)

/-- Key-checking loop of Script.is_multisig: checks operations[1+i] upward;
`none` models the IndexError when an index is out of range, `some false` the
early return on a non-key item. -/
def checkKeysFrom (ops : List ScriptItem) : Nat → Nat → Option Bool
  | _, 0 => some true
  | i, k+1 =>
    match ops[1 + i]? with
    | none => none
    | some it => if is_public_key it then checkKeysFrom ops (i + 1) k else some false

/-- Script.is_multisig; `none` models the uncaught exceptions the Python can
raise (IndexError in the key loop, TypeError when operations[-2] is bytes and
is compared against the integer m). -/
def is_multisig (ops : List ScriptItem) : Option Bool :=
  if ops.length < 4 then some false
  else
    match ops[0]? with
    | none => none
    | some (ScriptItem.push _) => some false
    | some (ScriptItem.num m) =>
      match checkKeysFrom ops 0 m with
      | none => none
      | some false => some false
      | some true =>
        match ops[ops.length - 2]? with
        | none => none
        | some (ScriptItem.push _) => none
        | some (ScriptItem.num n) =>
          some (!(decide (n < m)) && (ops[ops.length - 1]? == some (ScriptItem.num 174)))

/-- Output script templates as classified by TxOutput.script_type. -/
inductive ScriptType where
  | unknown
  | invalid
  | pubkeyhash
  | pubkey
  | p2sh
  | multisig
  | opreturn
  | p2wpkh
  | p2wsh
deriving DecidableEq, Repr

/-- Script.operations: the decoded list, or the empty list when iteration
raises CScriptInvalidError. -/
def operations (raw : List Nat) : List ScriptItem := (decodeOps raw).getD []

/-- TxOutput.script_type: validity check first, then the fixed recognizer
chain; `none` models an uncaught exception escaping from a recognizer. -/
def script_type (raw : List Nat) : Option ScriptType :=
  match decodeOps raw with
  | none => some ScriptType.invalid
  | some ops =>
    match is_pubkeyhash raw ops with
    | none => none
    | some true => some ScriptType.pubkeyhash
    | some false =>
      match is_pubkey ops with
      | none => none
      | some true => some ScriptType.pubkey
      | some false =>
        if is_p2sh raw then some ScriptType.p2sh
        else
          match is_multisig ops with
          | none => none
          | some true => some ScriptType.multisig
          | some false =>
            if is_return raw then some ScriptType.opreturn
            else if is_p2wpkh raw then some ScriptType.p2wpkh
            else if is_p2wsh raw then some ScriptType.p2wsh
            else some ScriptType.unknown

/-- address.Address value objects, identified by the classmethod that builds
them and the operand passed in (the string form is outside the embedding,
base58/bech32 being external collaborators). -/
inductive Address where
  | from_public_key (v : ScriptItem)
  | from_hash160 (v : ScriptItem) (p2sh : Bool)
  | from_bech32 (v : ScriptItem) (segwitVersion : Nat)
deriving DecidableEq, Repr

/-- TxOutput.addresses: one branch per script_type; `none` models an uncaught
exception (IndexError on an out-of-range operations index, TypeError when the
multisig slice bound operations[-2] is bytes, or a crash inside script_type). -/
def addresses (raw : List Nat) : Option (List Address) :=
  match script_type raw with
  | none => none
  | some ScriptType.pubkey =>
    match (operations raw)[0]? with
    | none => none
    | some it => some [Address.from_public_key it]
  | some ScriptType.pubkeyhash =>
    match (operations raw)[2]? with
    | none => none
    | some it => some [Address.from_hash160 it false]
  | some ScriptType.p2sh =>
    match (operations raw)[1]? with
    | none => none
    | some it => some [Address.from_hash160 it true]
  | some ScriptType.multisig =>
    match (operations raw)[(operations raw).length - 2]? with
    | none => none
    | some (ScriptItem.push _) => none
    | some (ScriptItem.num n) =>
      some ((((operations raw).drop 1).take n).map Address.from_public_key)
  | some ScriptType.p2wpkh =>
    match (operations raw)[1]? with
    | none => none
    | some it => some [Address.from_bech32 it 0]
  | some ScriptType.p2wsh =>
    match (operations raw)[1]? with
    | none => none
    | some it => some [Address.from_bech32 it 0]
  | some _ => some []


theorem checkKeysFrom_true_iff (ops : List ScriptItem) :
    ∀ k i, checkKeysFrom ops i k = some true ↔
      (∀ j, 1 + i ≤ j → j < 1 + i + k →
        ∃ it, ops[j]? = some it ∧ is_public_key it = true) := by
  intro k
  induction k with
  | zero =>
    intro i
    constructor
    · intro _ j h1 h2
      exact absurd h2 (by omega)
    · intro _
      rfl
  | succ k ih =>
    intro i
    cases h0 : ops[1 + i]? with
    | none =>
      simp only [checkKeysFrom, h0]
      constructor
      · intro h; cases h
      · intro h
        obtain ⟨it, hit, -⟩ := h (1 + i) (le_refl _) (by omega)
        rw [h0] at hit; cases hit
    | some it =>
      simp only [checkKeysFrom, h0]
      by_cases hpk : is_public_key it = true
      · rw [if_pos hpk, ih (i + 1)]
        constructor
        · intro h j h1 h2
          by_cases hj : j = 1 + i
          · exact ⟨it, by rw [hj]; exact h0, hpk⟩
          · exact h j (by omega) (by omega)
        · intro h j h1 h2
          exact h j (by omega) (by omega)
      · rw [if_neg hpk]
        constructor
        · intro h; cases h
        · intro h
          obtain ⟨it2, hit2, hpk2⟩ := h (1 + i) (le_refl _) (by omega)
          rw [h0] at hit2
          cases hit2
          exact absurd hpk2 hpk

/-- C7: is_multisig returns true precisely when the operations list has at
least 4 elements, operation 0 is an integer M, the operations in slots
1..1+M are all public-key byte pushes, operation -2 is an integer N with
N ≥ M, and operation -1 is OP_CHECKMULTISIG (opcode 174). -/
theorem is_multisig_true_iff (ops : List ScriptItem) :
    is_multisig ops = some true ↔
      (4 ≤ ops.length ∧
       ∃ m, ops[0]? = some (ScriptItem.num m) ∧
         (∀ j, 1 ≤ j → j < 1 + m →
           ∃ it, ops[j]? = some it ∧ is_public_key it = true) ∧
         ∃ n, ops[ops.length - 2]? = some (ScriptItem.num n) ∧ m ≤ n ∧
           ops[ops.length - 1]? = some (ScriptItem.num 174)) := by
  by_cases hlen : ops.length < 4
  · simp only [is_multisig, if_pos hlen]
    constructor
    · intro h; cases h
    · rintro ⟨h4, -⟩
      omega
  · obtain ⟨x0, h0⟩ : ∃ x, ops[0]? = some x := by
      cases hx : ops[0]? with
      | none => rw [List.getElem?_eq_none_iff] at hx; omega
      | some x => exact ⟨x, rfl⟩
    cases x0 with
    | push bs =>
      simp only [is_multisig, if_neg hlen, h0]
      constructor
      · intro h; cases h
      · rintro ⟨-, m, hm, -⟩
        exact ScriptItem.noConfusion (Option.some.inj hm)
    | num m =>
      have hkeys := checkKeysFrom_true_iff ops m 0
      cases hck : checkKeysFrom ops 0 m with
      | none =>
        rw [hck] at hkeys
        simp only [is_multisig, if_neg hlen, h0, hck]
        constructor
        · intro h; cases h
        · rintro ⟨-, m2, hm2, hk2, -⟩
          obtain rfl : m = m2 := ScriptItem.num.inj (Option.some.inj hm2)
          exact Option.noConfusion
            (hkeys.mpr (fun j h1 h2 => hk2 j (by omega) (by omega)))
      | some b =>
        rw [hck] at hkeys
        cases b with
        | false =>
          simp only [is_multisig, if_neg hlen, h0, hck]
          constructor
          · intro h; simp at h
          · rintro ⟨-, m2, hm2, hk2, -⟩
            obtain rfl : m = m2 := ScriptItem.num.inj (Option.some.inj hm2)
            have : (some false : Option Bool) = some true :=
              hkeys.mpr (fun j h1 h2 => hk2 j (by omega) (by omega))
            simp at this
        | true =>
          obtain ⟨y, hy⟩ : ∃ y, ops[ops.length - 2]? = some y := by
            cases hy2 : ops[ops.length - 2]? with
            | none => rw [List.getElem?_eq_none_iff] at hy2; omega
            | some y => exact ⟨y, rfl⟩
          cases y with
          | push bs2 =>
            simp only [is_multisig, if_neg hlen, h0, hck, hy]
            constructor
            · intro h; cases h
            · rintro ⟨-, m2, hm2, -, n2, hn2, -⟩
              exact ScriptItem.noConfusion (Option.some.inj hn2)
          | num n =>
            simp only [is_multisig, if_neg hlen, h0, hck, hy]
            constructor
            · intro h
              have hb := Option.some.inj h
              simp only [Bool.and_eq_true, Bool.not_eq_true', decide_eq_false_iff_not,
                beq_iff_eq] at hb
              refine ⟨by omega, m, rfl, ?_, n, rfl, by omega, hb.2⟩
              intro j h1 h2
              exact hkeys.mp rfl j (by omega) (by omega)
            · rintro ⟨-, m2, hm2, -, n2, hn2, hge, hlast⟩
              obtain rfl : m = m2 := ScriptItem.num.inj (Option.some.inj hm2)
              obtain rfl : n = n2 := ScriptItem.num.inj (Option.some.inj hn2)
              have hnm : ¬ (n < m) := by omega
              simp [hnm, hlast]

/-- C8 counterexample input: serialized script `OP_1 <33-byte key 02..>
OP_2 OP_CHECKMULTISIG`, a well-formed bare multisig shape with M = 1 and
N = 2 but only one key present. -/
def msRaw : List Nat := 0x51 :: 0x21 :: 0x02 :: (List.replicate 32 0 ++ [0x52, 0xae])

/-- Counterexample for C8: the multisig address derivation iterates
operations[1 : 1+N] with N = operations[-2] instead of the claim's M =
operations[0]; on msRaw (M = 1, N = 2) it produces 2 addresses, not 1, and
the second one is built from the integer operand 2 rather than a public key. -/
theorem addresses_multisig_counterexample :
    script_type msRaw = some ScriptType.multisig ∧
    (operations msRaw)[0]? = some (ScriptItem.num 1) ∧
    (addresses msRaw).map List.length = some 2 ∧
    addresses msRaw =
      some [Address.from_public_key (ScriptItem.push (2 :: List.replicate 32 0)),
            Address.from_public_key (ScriptItem.num 2)] :=
  ⟨by decide, by decide, by decide, by decide⟩

/-- C8 amended: for every output classified multisig whose operations[-2] is
the integer N, the addresses list is the from_public_key image of
operations[1 : 1+N] — min N (len-1) entries, one per slice element (not one
per public key in slots 1..1+M). -/
theorem addresses_multisig_amended :
    ∀ raw ops n, script_type raw = some ScriptType.multisig →
      decodeOps raw = some ops →
      ops[ops.length - 2]? = some (ScriptItem.num n) →
      addresses raw = some (((ops.drop 1).take n).map Address.from_public_key) ∧
      (((ops.drop 1).take n).map Address.from_public_key).length
        = min n (ops.length - 1) := by
  intro raw ops n hst hops hn
  have hop : operations raw = ops := by simp [operations, hops]
  constructor
  · simp only [addresses, hst, hop, hn]
  · simp [List.length_take, List.length_drop]

/-- Closed witness for C8 amended: `addresses_multisig_amended` applied to
the concrete script msRaw. -/
theorem addresses_multisig_amended_witness :
    addresses msRaw = some ((((
      [ScriptItem.num 1, ScriptItem.push (2 :: List.replicate 32 0),
       ScriptItem.num 2, ScriptItem.num 174] : List ScriptItem).drop 1).take 2).map
        Address.from_public_key) :=
  (addresses_multisig_amended msRaw
    [ScriptItem.num 1, ScriptItem.push (2 :: List.replicate 32 0),
     ScriptItem.num 2, ScriptItem.num 174] 2
    (by decide) (by decide) (by decide)).1

/-- C9: script_type is not total over well-formed outputs — a script that
decodes successfully to fewer than 2 operations (for example the empty
script) makes is_pubkeyhash index out of range, so script_type raises
(modelled none) instead of returning unknown. -/
theorem script_type_short_ops_crash :
    ∀ raw ops, decodeOps raw = some ops → ops.length < 2 →
      script_type raw = none := by
  intro raw ops h hlen
  simp [script_type, h, is_pubkeyhash, hlen]

/-- Closed witness for C9: the empty script decodes to zero operations and
script_type crashes on it. -/
theorem script_type_short_ops_crash_witness : script_type [] = none :=
  script_type_short_ops_crash [] [] rfl (by decide)

/-- input.TxInput decoded state: the script length and start parsed in
`__init__` (the varint at offset 36), the stored raw slice, and the witness
list (empty at construction, filled by the transaction decoder). -/
structure TxInput where
  scriptLength : Nat
  scriptStart : Nat
  raw : List Nat
  witnesses : List (List Nat)
deriving DecidableEq, Repr

/-- TxInput.size: `_script_start + _script_length + 4`. -/
def TxInput.size (i : TxInput) : Nat := i.scriptStart + i.scriptLength + 4

/-- TxInput.from_bytes: reads the script-length varint at offset 36 and
slices `raw_bytes[:size]` (Python slicing clamps silently — no truncation
check); `none` only when the varint itself cannot be read. -/
def TxInput.fromBytes (data : List Nat) : Option TxInput :=
  match varint (data.drop 36) with
  | none => none
  | some (sl, vl) =>
    some { scriptLength := sl, scriptStart := 36 + vl,
           raw := data.take (36 + vl + sl + 4), witnesses := [] }

/-- output.TxOutput decoded state: script bytes slice, declared size, and the
8-byte value slice, exactly the attributes `__init__` stores. -/
structure TxOutput where
  scriptRaw : List Nat
  size : Nat
  valueRaw : List Nat
deriving DecidableEq, Repr

/-- TxOutput.from_bytes: reads the script-length varint at offset 8 and
slices the script and value bytes (clamped, no truncation check); `none`
only when the varint cannot be read. -/
def TxOutput.fromBytes (data : List Nat) : Option TxOutput :=
  match varint (data.drop 8) with
  | none => none
  | some (sl, vs) =>
    some { scriptRaw := (data.drop (8 + vs)).take sl, size := 8 + vs + sl,
           valueRaw := data.take 8 }

/-- The input-parsing loop of Transaction.__init__: parses `n` inputs
starting at `offset`, returning them with the final offset. -/
def parseInputs (data : List Nat) : Nat → Nat → Option (List TxInput × Nat)
  | offset, 0 => some ([], offset)
  | offset, n + 1 =>
    match TxInput.fromBytes (data.drop offset) with
    | none => none
    | some i =>
      match parseInputs data (offset + i.size) n with
      | none => none
      | some (is, off) => some (i :: is, off)

/-- The output-parsing loop of Transaction.__init__. -/
def parseOutputs (data : List Nat) : Nat → Nat → Option (List TxOutput × Nat)
  | offset, 0 => some ([], offset)
  | offset, n + 1 =>
    match TxOutput.fromBytes (data.drop offset) with
    | none => none
    | some o =>
      match parseOutputs data (offset + o.size) n with
      | none => none
      | some (os, off) => some (o :: os, off)

/-- The inner witness loop: reads `k` compact-size-prefixed witness items
(slices clamped, as in Python) and returns them with the final offset. -/
def parseComponents (data : List Nat) : Nat → Nat → Option (List (List Nat) × Nat)
  | offset, 0 => some ([], offset)
  | offset, k + 1 =>
    match varint (data.drop offset) with
    | none => none
    | some (cl, vs) =>
      match parseComponents data (offset + vs + cl) k with
      | none => none
      | some (ws, off) =>
        some (((data.drop (offset + vs)).take cl) :: ws, off)

/-- The outer witness loop: one compact-size-count-prefixed stack per input. -/
def parseStacks (data : List Nat) : Nat → Nat → Option (List (List (List Nat)) × Nat)
  | offset, 0 => some ([], offset)
  | offset, n + 1 =>
    match varint (data.drop offset) with
    | none => none
    | some (k, vs) =>
      match parseComponents data (offset + vs) k with
      | none => none
      | some (ws, off) =>
        match parseStacks data off n with
        | none => none
        | some (stks, off2) => some (ws :: stks, off2)

/-- transaction.Transaction decoded state: exactly the attributes stored by
`__init__` (`_offset_before_tx_witnesses` exists only for segwit, hence the
Option). -/
structure Transaction where
  isSegwit : Bool
  nInputs : Nat
  inputs : List TxInput
  nOutputs : Nat
  outputs : List TxOutput
  offsetBeforeWitnesses : Option Nat
  size : Nat
  raw : List Nat
deriving DecidableEq, Repr

/-- The in-place `_in.add_witness` loop attaches the i-th parsed stack to the
i-th input. -/
def attachWitnesses (inputs : List TxInput) (stks : List (List (List Nat))) :
    List TxInput :=
  List.zipWith (fun i w => { i with witnesses := w }) inputs stks

/-- Transaction.__init__ / Transaction.from_bytes: marker probe at bytes
4..6, input loop, output loop, optional witness section, then
`size := offset + 4`, `raw := data[:size]`, failing (`ValueError:
Incomplete transaction`) when the buffer holds fewer than `size` bytes;
`none` also models the ValueError a failing varint read raises mid-parse. -/
def Transaction.fromBytes (data : List Nat) : Option Transaction :=
  let sw : Bool := decide ((data.drop 4).take 2 = [0, 1])
  let off0 : Nat := if sw then 6 else 4
  match varint (data.drop off0) with
  | none => none
  | some (nIn, vs1) =>
    match parseInputs data (off0 + vs1) nIn with
    | none => none
    | some (inputs, off1) =>
      match varint (data.drop off1) with
      | none => none
      | some (nOut, vs2) =>
        match parseOutputs data (off1 + vs2) nOut with
        | none => none
        | some (outputs, off2) =>
          if sw then
            match parseStacks data off2 nIn with
            | none => none
            | some (stks, off3) =>
              if off3 + 4 = (data.take (off3 + 4)).length then
                some { isSegwit := true, nInputs := nIn,
                       inputs := attachWitnesses inputs stks,
                       nOutputs := nOut, outputs := outputs,
                       offsetBeforeWitnesses := some off2,
                       size := off3 + 4, raw := data.take (off3 + 4) }
              else none
          else
            if off2 + 4 = (data.take (off2 + 4)).length then
              some { isSegwit := false, nInputs := nIn, inputs := inputs,
                     nOutputs := nOut, outputs := outputs,
                     offsetBeforeWitnesses := none,
                     size := off2 + 4, raw := data.take (off2 + 4) }
            else none

/-- Lower-case hex digit of a value below 16 (ASCII). -/
def hexChar (n : Nat) : Char := if n < 10 then Char.ofNat (48 + n) else Char.ofNat (87 + n)

/-- utils.hexstring: reverse the byte order and hex-encode. -/
def hexstring (bs : List Nat) : String :=
  String.mk (bs.reverse.foldr (fun b acc => hexChar (b / 16 % 16) :: hexChar (b % 16) :: acc) [])

/-- Transaction.version: `uint32(raw[:4])`. -/
def Transaction.version (tx : Transaction) : Nat := leNat (tx.raw.take 4)

/-- Transaction.locktime: `uint32(raw[-4:])`. -/
def Transaction.locktime (tx : Transaction) : Nat :=
  leNat (tx.raw.drop (tx.raw.length - 4))

/-- Transaction.hash (the wtxid): reversed-hex double-SHA256 of the full raw
serialization.  The hash itself is an external collaborator, so the
definition is parametric in `H` (standing for sha256_2). -/
def Transaction.hash (H : List Nat → List Nat) (tx : Transaction) : String :=
  hexstring (H tx.raw)

/-- Transaction.txid: for segwit, reversed-hex double-SHA256 of raw[:4] ‖
raw[6:offset_before_witnesses] ‖ raw[-4:]; otherwise the full-raw hash.
`none` models the AttributeError on a Transaction value lacking
`_offset_before_tx_witnesses`. -/
def Transaction.txid (H : List Nat → List Nat) (tx : Transaction) : Option String :=
  if tx.isSegwit then
    match tx.offsetBeforeWitnesses with
    | none => none
    | some ob =>
      some (hexstring (H (tx.raw.take 4 ++ (tx.raw.drop 6).take (ob - 6)
        ++ tx.raw.drop (tx.raw.length - 4))))
  else some (tx.hash H)

/-- Transaction.vsize: the declared size for legacy transactions; for segwit
`ceil((stripped·3 + size)/4)` with `stripped = size - (2 + wit_sz)` and
`wit_sz = size - offset_before_witnesses - 4` (Python ints, hence ℤ). -/
def Transaction.vsize (tx : Transaction) : Option Int :=
  if tx.isSegwit = false then some (tx.size : Int)
  else
    match tx.offsetBeforeWitnesses with
    | none => none
    | some ob =>
      let witSz : Int := (tx.size : Int) - (ob : Int) - 4
      let strippedSz : Int := (tx.size : Int) - (2 + witSz)
      some ((strippedSz * 3 + (tx.size : Int) + 3).ediv 4)

theorem varint_consumed_pos (xs : List Nat) (v c : Nat)
    (h : varint xs = some (v, c)) : 1 ≤ c := by
  cases xs with
  | nil => cases h
  | cons b rest =>
    simp only [varint] at h
    by_cases h255 : 255 < b
    · rw [if_pos h255] at h; cases h
    · rw [if_neg h255] at h
      by_cases h253 : b < 253
      · rw [if_pos h253] at h
        cases Option.some.inj h
        omega
      · rw [if_neg h253] at h
        set K : Nat := if b = 253 then 2 else if b = 254 then 4 else 8 with hK
        by_cases hlen : rest.length < K
        · rw [if_pos hlen] at h; cases h
        · rw [if_neg hlen] at h
          cases Option.some.inj h
          omega

theorem varint_le_length (xs : List Nat) (v c : Nat)
    (h : varint xs = some (v, c)) : c ≤ xs.length := by
  cases xs with
  | nil => cases h
  | cons b rest =>
    simp only [varint] at h
    by_cases h255 : 255 < b
    · rw [if_pos h255] at h; cases h
    · rw [if_neg h255] at h
      by_cases h253 : b < 253
      · rw [if_pos h253] at h
        cases Option.some.inj h
        simp
      · rw [if_neg h253] at h
        set K : Nat := if b = 253 then 2 else if b = 254 then 4 else 8 with hK
        by_cases hlen : rest.length < K
        · rw [if_pos hlen] at h; cases h
        · rw [if_neg hlen] at h
          cases Option.some.inj h
          simp only [List.length_cons]
          omega

theorem varint_append (xs t : List Nat) (r : Nat × Nat)
    (h : varint xs = some r) : varint (xs ++ t) = some r := by
  cases xs with
  | nil => cases h
  | cons b rest =>
    simp only [List.cons_append, varint] at h ⊢
    by_cases h255 : 255 < b
    · rw [if_pos h255] at h; cases h
    · rw [if_neg h255] at h ⊢
      by_cases h253 : b < 253
      · rw [if_pos h253] at h ⊢
        exact h
      · rw [if_neg h253] at h ⊢
        set K : Nat := if b = 253 then 2 else if b = 254 then 4 else 8 with hK
        by_cases hlen : rest.length < K
        · rw [if_pos hlen] at h; cases h
        · rw [if_neg hlen] at h
          have hlen2 : ¬ (rest ++ t).length < K := by
            simp only [List.length_append]
            omega
          rw [if_neg hlen2, List.take_append_of_le_length (by omega)]
          exact h

theorem txInput_fromBytes_append (xs t : List Nat) (i : TxInput)
    (h : TxInput.fromBytes xs = some i) (hsz : i.size ≤ xs.length) :
    TxInput.fromBytes (xs ++ t) = some i := by
  simp only [TxInput.fromBytes] at h ⊢
  cases hv : varint (xs.drop 36) with
  | none => rw [hv] at h; cases h
  | some r =>
    obtain ⟨sl, vl⟩ := r
    rw [hv] at h
    dsimp only at h
    have h36 : 36 < xs.length := by
      by_contra hc
      push_neg at hc
      rw [List.drop_eq_nil_of_le (by omega)] at hv
      cases hv
    rw [List.drop_append_of_le_length (by omega), varint_append _ t _ hv]
    dsimp only
    cases Option.some.inj h
    simp only [TxInput.size] at hsz
    rw [List.take_append_of_le_length (by omega)]

theorem txOutput_fromBytes_append (xs t : List Nat) (o : TxOutput)
    (h : TxOutput.fromBytes xs = some o) (hsz : o.size ≤ xs.length) :
    TxOutput.fromBytes (xs ++ t) = some o := by
  simp only [TxOutput.fromBytes] at h ⊢
  cases hv : varint (xs.drop 8) with
  | none => rw [hv] at h; cases h
  | some r =>
    obtain ⟨sl, vs⟩ := r
    rw [hv] at h
    dsimp only at h
    have h8 : 8 < xs.length := by
      by_contra hc
      push_neg at hc
      rw [List.drop_eq_nil_of_le (by omega)] at hv
      cases hv
    rw [List.drop_append_of_le_length (by omega), varint_append _ t _ hv]
    dsimp only
    cases Option.some.inj h
    simp only at hsz
    rw [List.drop_append_of_le_length (by omega),
      List.take_append_of_le_length (by simp only [List.length_drop]; omega),
      List.take_append_of_le_length (by omega)]

/-- C5 counterexample input buffer: 37 bytes declaring a 5-byte script, so
the declared consumed size is 36 + 1 + 5 + 4 = 46 > 37. -/
def shortInputBuf : List Nat := List.replicate 36 0 ++ [5]

/-- C5 counterexample output buffer: 10 bytes declaring a 5-byte script, so
the declared consumed size is 8 + 1 + 5 = 14 > 10. -/
def shortOutputBuf : List Nat := List.replicate 8 0 ++ [5, 1]

/-- Counterexample for C5: on buffers shorter than the declared consumed
size, TxInput.from_bytes and TxOutput.from_bytes both return a value (raw
slices silently clamped) instead of failing with a Truncated error. -/
theorem truncated_decode_returns_value :
    (TxInput.fromBytes shortInputBuf).map TxInput.size = some 46 ∧
    shortInputBuf.length = 37 ∧
    (TxOutput.fromBytes shortOutputBuf).map TxOutput.size = some 14 ∧
    shortOutputBuf.length = 10 :=
  ⟨by decide, by decide, by decide, by decide⟩

/-- C5 amended: input/output decoding fails only when the script-length
varint (at offset 36 resp. 8) cannot be read; whenever that varint is
readable the decoder returns a value even if the buffer is shorter than the
declared consumed size, with the raw slice clamped to the available bytes
(length min(consumed, buffer length)). -/
theorem decode_truncation_behavior :
    ∀ data : List Nat,
      ((TxInput.fromBytes data).isSome ↔ (varint (data.drop 36)).isSome) ∧
      ((TxOutput.fromBytes data).isSome ↔ (varint (data.drop 8)).isSome) ∧
      (∀ i, TxInput.fromBytes data = some i →
        i.raw = data.take i.size ∧ i.raw.length = min i.size data.length) ∧
      (∀ o sl vs, varint (data.drop 8) = some (sl, vs) →
        TxOutput.fromBytes data = some o →
        o.valueRaw = data.take 8 ∧ o.size = 8 + vs + sl ∧
        o.scriptRaw.length = min sl (data.length - (8 + vs))) := by
  intro data
  refine ⟨?_, ?_, ?_, ?_⟩
  · simp only [TxInput.fromBytes]
    cases varint (data.drop 36) with
    | none => simp
    | some r => obtain ⟨sl, vl⟩ := r; simp
  · simp only [TxOutput.fromBytes]
    cases varint (data.drop 8) with
    | none => simp
    | some r => obtain ⟨sl, vs⟩ := r; simp
  · intro i h
    simp only [TxInput.fromBytes] at h
    cases hv : varint (data.drop 36) with
    | none => rw [hv] at h; cases h
    | some r =>
      obtain ⟨sl, vl⟩ := r
      rw [hv] at h
      try dsimp only at h
      cases Option.some.inj h
      refine ⟨rfl, ?_⟩
      simp [TxInput.size, List.length_take]
  · intro o sl vs hv h
    simp only [TxOutput.fromBytes, hv] at h
    try dsimp only at h
    cases Option.some.inj h
    refine ⟨rfl, rfl, ?_⟩
    simp [List.length_take, List.length_drop]

/-- Closed witness for C5 amended: `decode_truncation_behavior` applied to
the concrete truncated buffers. -/
theorem decode_truncation_behavior_witness :
    TxOutput.fromBytes shortOutputBuf =
      some { scriptRaw := [1], size := 14, valueRaw := List.replicate 8 0 } ∧
    ({ scriptRaw := [1], size := 14, valueRaw := List.replicate 8 0 } :
      TxOutput).valueRaw = shortOutputBuf.take 8 :=
  ⟨by decide,
   ((decode_truncation_behavior shortOutputBuf).2.2.2
      { scriptRaw := [1], size := 14, valueRaw := List.replicate 8 0 }
      5 1 (by decide) (by decide)).1⟩

theorem parseInputs_mono (data : List Nat) :
    ∀ n offset is off, parseInputs data offset n = some (is, off) → offset ≤ off := by
  intro n
  induction n with
  | zero =>
    intro offset is off h
    cases Option.some.inj h
    exact le_refl _
  | succ n ih =>
    intro offset is off h
    simp only [parseInputs] at h
    cases hi : TxInput.fromBytes (data.drop offset) with
    | none => rw [hi] at h; cases h
    | some i =>
      rw [hi] at h
      try dsimp only at h
      cases hr : parseInputs data (offset + i.size) n with
      | none => rw [hr] at h; cases h
      | some p =>
        obtain ⟨is2, off2⟩ := p
        rw [hr] at h
        try dsimp only at h
        cases Option.some.inj h
        have := ih _ _ _ hr
        omega

theorem parseOutputs_mono (data : List Nat) :
    ∀ n offset os off, parseOutputs data offset n = some (os, off) → offset ≤ off := by
  intro n
  induction n with
  | zero =>
    intro offset os off h
    cases Option.some.inj h
    exact le_refl _
  | succ n ih =>
    intro offset os off h
    simp only [parseOutputs] at h
    cases ho : TxOutput.fromBytes (data.drop offset) with
    | none => rw [ho] at h; cases h
    | some o =>
      rw [ho] at h
      try dsimp only at h
      cases hr : parseOutputs data (offset + o.size) n with
      | none => rw [hr] at h; cases h
      | some p =>
        obtain ⟨os2, off2⟩ := p
        rw [hr] at h
        try dsimp only at h
        cases Option.some.inj h
        have := ih _ _ _ hr
        omega

theorem parseComponents_mono (data : List Nat) :
    ∀ k offset ws off, parseComponents data offset k = some (ws, off) → offset ≤ off := by
  intro k
  induction k with
  | zero =>
    intro offset ws off h
    cases Option.some.inj h
    exact le_refl _
  | succ k ih =>
    intro offset ws off h
    simp only [parseComponents] at h
    cases hv : varint (data.drop offset) with
    | none => rw [hv] at h; cases h
    | some r =>
      obtain ⟨cl, vs⟩ := r
      rw [hv] at h
      try dsimp only at h
      cases hr : parseComponents data (offset + vs + cl) k with
      | none => rw [hr] at h; cases h
      | some p =>
        obtain ⟨ws2, off2⟩ := p
        rw [hr] at h
        try dsimp only at h
        cases Option.some.inj h
        have := ih _ _ _ hr
        omega

theorem parseStacks_mono (data : List Nat) :
    ∀ n offset ss off, parseStacks data offset n = some (ss, off) → offset ≤ off := by
  intro n
  induction n with
  | zero =>
    intro offset ss off h
    cases Option.some.inj h
    exact le_refl _
  | succ n ih =>
    intro offset ss off h
    simp only [parseStacks] at h
    cases hv : varint (data.drop offset) with
    | none => rw [hv] at h; cases h
    | some r =>
      obtain ⟨k, vs⟩ := r
      rw [hv] at h
      try dsimp only at h
      cases hc : parseComponents data (offset + vs) k with
      | none => rw [hc] at h; cases h
      | some p =>
        obtain ⟨ws, off1⟩ := p
        rw [hc] at h
        try dsimp only at h
        cases hr : parseStacks data off1 n with
        | none => rw [hr] at h; cases h
        | some q =>
          obtain ⟨ss2, off2⟩ := q
          rw [hr] at h
          try dsimp only at h
          cases Option.some.inj h
          have h1 := parseComponents_mono data _ _ _ _ hc
          have h2 := ih _ _ _ hr
          omega

theorem parseInputs_append (data t : List Nat) :
    ∀ n offset is off, parseInputs data offset n = some (is, off) →
      off ≤ data.length → parseInputs (data ++ t) offset n = some (is, off) := by
  intro n
  induction n with
  | zero =>
    intro offset is off h _
    exact h
  | succ n ih =>
    intro offset is off h hle
    simp only [parseInputs] at h ⊢
    cases hi : TxInput.fromBytes (data.drop offset) with
    | none => rw [hi] at h; cases h
    | some i =>
      rw [hi] at h
      try dsimp only at h
      cases hr : parseInputs data (offset + i.size) n with
      | none => rw [hr] at h; cases h
      | some p =>
        obtain ⟨is2, off2⟩ := p
        rw [hr] at h
        try dsimp only at h
        cases Option.some.inj h
        have hmono := parseInputs_mono data _ _ _ _ hr
        have hoff : offset ≤ data.length := by omega
        have hisz : i.size ≤ (data.drop offset).length := by
          simp only [List.length_drop]
          omega
        rw [List.drop_append_of_le_length hoff,
          txInput_fromBytes_append _ t i hi hisz]
        try dsimp only
        rw [ih _ _ _ hr (by omega)]

theorem parseOutputs_append (data t : List Nat) :
    ∀ n offset os off, parseOutputs data offset n = some (os, off) →
      off ≤ data.length → parseOutputs (data ++ t) offset n = some (os, off) := by
  intro n
  induction n with
  | zero =>
    intro offset os off h _
    exact h
  | succ n ih =>
    intro offset os off h hle
    simp only [parseOutputs] at h ⊢
    cases ho : TxOutput.fromBytes (data.drop offset) with
    | none => rw [ho] at h; cases h
    | some o =>
      rw [ho] at h
      try dsimp only at h
      cases hr : parseOutputs data (offset + o.size) n with
      | none => rw [hr] at h; cases h
      | some p =>
        obtain ⟨os2, off2⟩ := p
        rw [hr] at h
        try dsimp only at h
        cases Option.some.inj h
        have hmono := parseOutputs_mono data _ _ _ _ hr
        have hoff : offset ≤ data.length := by omega
        have hosz : o.size ≤ (data.drop offset).length := by
          simp only [List.length_drop]
          omega
        rw [List.drop_append_of_le_length hoff,
          txOutput_fromBytes_append _ t o ho hosz]
        try dsimp only
        rw [ih _ _ _ hr (by omega)]

theorem parseComponents_append (data t : List Nat) :
    ∀ k offset ws off, parseComponents data offset k = some (ws, off) →
      off ≤ data.length → parseComponents (data ++ t) offset k = some (ws, off) := by
  intro k
  induction k with
  | zero =>
    intro offset ws off h _
    exact h
  | succ k ih =>
    intro offset ws off h hle
    simp only [parseComponents] at h ⊢
    cases hv : varint (data.drop offset) with
    | none => rw [hv] at h; cases h
    | some r =>
      obtain ⟨cl, vs⟩ := r
      rw [hv] at h
      try dsimp only at h
      cases hr : parseComponents data (offset + vs + cl) k with
      | none => rw [hr] at h; cases h
      | some p =>
        obtain ⟨ws2, off2⟩ := p
        rw [hr] at h
        try dsimp only at h
        cases Option.some.inj h
        have hmono := parseComponents_mono data _ _ _ _ hr
        have hoff : offset ≤ data.length := by omega
        rw [List.drop_append_of_le_length hoff,
          varint_append _ t _ hv]
        try dsimp only
        rw [List.drop_append_of_le_length (by omega : offset + vs ≤ data.length),
          List.take_append_of_le_length (by simp only [List.length_drop]; omega),
          ih _ _ _ hr (by omega)]

theorem parseStacks_append (data t : List Nat) :
    ∀ n offset ss off, parseStacks data offset n = some (ss, off) →
      off ≤ data.length → parseStacks (data ++ t) offset n = some (ss, off) := by
  intro n
  induction n with
  | zero =>
    intro offset ss off h _
    exact h
  | succ n ih =>
    intro offset ss off h hle
    simp only [parseStacks] at h ⊢
    cases hv : varint (data.drop offset) with
    | none => rw [hv] at h; cases h
    | some r =>
      obtain ⟨k, vs⟩ := r
      rw [hv] at h
      try dsimp only at h
      cases hc : parseComponents data (offset + vs) k with
      | none => rw [hc] at h; cases h
      | some p =>
        obtain ⟨ws, off1⟩ := p
        rw [hc] at h
        try dsimp only at h
        cases hr : parseStacks data off1 n with
        | none => rw [hr] at h; cases h
        | some q =>
          obtain ⟨ss2, off2⟩ := q
          rw [hr] at h
          try dsimp only at h
          cases Option.some.inj h
          have h1 := parseComponents_mono data _ _ _ _ hc
          have h2 := parseStacks_mono data _ _ _ _ hr
          have hoff : offset ≤ data.length := by omega
          rw [List.drop_append_of_le_length hoff, varint_append _ t _ hv]
          try dsimp only
          rw [parseComponents_append data t _ _ _ _ hc (by omega)]
          try dsimp only
          rw [ih _ _ _ hr (by omega)]

theorem fromBytes_master (data : List Nat) (tx : Transaction)
    (h : Transaction.fromBytes data = some tx) :
    (tx.raw = data.take tx.size ∧ tx.raw.length = tx.size ∧ tx.size ≤ data.length) ∧
    ((tx.isSegwit = true →
        ∃ ob, tx.offsetBeforeWitnesses = some ob ∧ 6 ≤ ob ∧ ob + 4 ≤ tx.size) ∧
     (tx.isSegwit = false → tx.offsetBeforeWitnesses = none)) ∧
    (∀ t, Transaction.fromBytes (data ++ t) = some tx) := by
  by_cases hsw : (data.drop 4).take 2 = [0, 1]
  case pos =>
    have hswb : (decide ((data.drop 4).take 2 = [0, 1])) = true := decide_eq_true hsw
    simp only [Transaction.fromBytes, hswb, if_true] at h
    cases hv1 : varint (data.drop 6) with
    | none => rw [hv1] at h; cases h
    | some r1 =>
      obtain ⟨nIn, vs1⟩ := r1
      rw [hv1] at h
      try dsimp only at h
      cases hpi : parseInputs data (6 + vs1) nIn with
      | none => rw [hpi] at h; cases h
      | some p1 =>
        obtain ⟨inputs, off1⟩ := p1
        rw [hpi] at h
        try dsimp only at h
        cases hv2 : varint (data.drop off1) with
        | none => rw [hv2] at h; cases h
        | some r2 =>
          obtain ⟨nOut, vs2⟩ := r2
          rw [hv2] at h
          try dsimp only at h
          cases hpo : parseOutputs data (off1 + vs2) nOut with
          | none => rw [hpo] at h; cases h
          | some p2 =>
            obtain ⟨outputs, off2⟩ := p2
            rw [hpo] at h
            try dsimp only at h
            cases hps : parseStacks data off2 nIn with
            | none => rw [hps] at h; cases h
            | some p3 =>
              obtain ⟨stks, off3⟩ := p3
              rw [hps] at h
              try dsimp only at h
              by_cases hchk : off3 + 4 = (data.take (off3 + 4)).length
              case neg => rw [if_neg hchk] at h; cases h
              case pos =>
                rw [if_pos hchk] at h
                cases Option.some.inj h
                have hvs1p := varint_consumed_pos _ _ _ hv1
                have hvs2p := varint_consumed_pos _ _ _ hv2
                have hmi := parseInputs_mono data _ _ _ _ hpi
                have hmo := parseOutputs_mono data _ _ _ _ hpo
                have hms := parseStacks_mono data _ _ _ _ hps
                have hlen : off3 + 4 ≤ data.length := by
                  rw [List.length_take] at hchk
                  omega
                refine ⟨⟨rfl, ?_, ?_⟩, ⟨?_, ?_⟩, ?_⟩
                · exact hchk.symm
                · exact hlen
                · intro _
                  refine ⟨off2, rfl, by omega, ?_⟩
                  show off2 + 4 ≤ off3 + 4
                  omega
                · intro hfalse
                  cases hfalse
                · intro t
                  have hsw2 : ((data ++ t).drop 4).take 2 = [0, 1] := by
                    rw [List.drop_append_of_le_length (by omega),
                      List.take_append_of_le_length (by simp only [List.length_drop]; omega)]
                    exact hsw
                  have hswb2 : (decide (((data ++ t).drop 4).take 2 = [0, 1])) = true :=
                    decide_eq_true hsw2
                  simp only [Transaction.fromBytes, hswb2, if_true]
                  rw [List.drop_append_of_le_length (by omega : 6 ≤ data.length),
                    varint_append _ t _ hv1]
                  try dsimp only
                  rw [parseInputs_append data t _ _ _ _ hpi (by omega)]
                  try dsimp only
                  rw [List.drop_append_of_le_length (by omega : off1 ≤ data.length),
                    varint_append _ t _ hv2]
                  try dsimp only
                  rw [parseOutputs_append data t _ _ _ _ hpo (by omega)]
                  try dsimp only
                  rw [parseStacks_append data t _ _ _ _ hps (by omega)]
                  try dsimp only
                  rw [List.take_append_of_le_length (by omega : off3 + 4 ≤ data.length),
                    if_pos hchk]
  case neg =>
    have hswb : (decide ((data.drop 4).take 2 = [0, 1])) = false :=
      decide_eq_false hsw
    simp only [Transaction.fromBytes, hswb, if_false, Bool.false_eq_true] at h
    cases hv1 : varint (data.drop 4) with
    | none => rw [hv1] at h; cases h
    | some r1 =>
      obtain ⟨nIn, vs1⟩ := r1
      rw [hv1] at h
      try dsimp only at h
      cases hpi : parseInputs data (4 + vs1) nIn with
      | none => rw [hpi] at h; cases h
      | some p1 =>
        obtain ⟨inputs, off1⟩ := p1
        rw [hpi] at h
        try dsimp only at h
        cases hv2 : varint (data.drop off1) with
        | none => rw [hv2] at h; cases h
        | some r2 =>
          obtain ⟨nOut, vs2⟩ := r2
          rw [hv2] at h
          try dsimp only at h
          cases hpo : parseOutputs data (off1 + vs2) nOut with
          | none => rw [hpo] at h; cases h
          | some p2 =>
            obtain ⟨outputs, off2⟩ := p2
            rw [hpo] at h
            try dsimp only at h
            by_cases hchk : off2 + 4 = (data.take (off2 + 4)).length
            case neg => rw [if_neg hchk] at h; cases h
            case pos =>
              rw [if_pos hchk] at h
              cases Option.some.inj h
              have hvs1p := varint_consumed_pos _ _ _ hv1
              have hvs2p := varint_consumed_pos _ _ _ hv2
              have hmi := parseInputs_mono data _ _ _ _ hpi
              have hmo := parseOutputs_mono data _ _ _ _ hpo
              have hlen : off2 + 4 ≤ data.length := by
                rw [List.length_take] at hchk
                omega
              refine ⟨⟨rfl, ?_, ?_⟩, ⟨?_, ?_⟩, ?_⟩
              · exact hchk.symm
              · exact hlen
              · intro hfalse
                cases hfalse
              · intro _
                rfl
              · intro t
                have hsw2 : ¬ (((data ++ t).drop 4).take 2 = [0, 1]) := by
                  rw [List.drop_append_of_le_length (by omega),
                    List.take_append_of_le_length (by simp only [List.length_drop]; omega)]
                  exact hsw
                have hswb2 : (decide (((data ++ t).drop 4).take 2 = [0, 1])) = false :=
                  decide_eq_false hsw2
                simp only [Transaction.fromBytes, hswb2, if_false, Bool.false_eq_true]
                rw [List.drop_append_of_le_length (by omega : 4 ≤ data.length),
                  varint_append _ t _ hv1]
                try dsimp only
                rw [parseInputs_append data t _ _ _ _ hpi (by omega)]
                try dsimp only
                rw [List.drop_append_of_le_length (by omega : off1 ≤ data.length),
                  varint_append _ t _ hv2]
                try dsimp only
                rw [parseOutputs_append data t _ _ _ _ hpo (by omega)]
                try dsimp only
                rw [List.take_append_of_le_length (by omega : off2 + 4 ≤ data.length),
                  if_pos hchk]

/-- Minimal legacy transaction: version 1, no inputs, no outputs, locktime 0. -/
def legacyTx : List Nat := [1, 0, 0, 0, 0, 0, 0, 0, 0, 0]

/-- Its parse result. -/
def legacyParsed : Transaction :=
  { isSegwit := false, nInputs := 0, inputs := [], nOutputs := 0, outputs := [],
    offsetBeforeWitnesses := none, size := 10, raw := [1, 0, 0, 0, 0, 0, 0, 0, 0, 0] }

/-- Small segwit transaction: version 1, marker 00 01, one all-zero-prevout
input with empty script, one zero-value empty-script output, one witness
stack holding a single 2-byte item, locktime 0 — 66 bytes. -/
def segTx : List Nat :=
  [1, 0, 0, 0] ++ [0, 1] ++ [1]
  ++ (List.replicate 32 0 ++ [0, 0, 0, 0] ++ [0] ++ [255, 255, 255, 255])
  ++ [1] ++ (List.replicate 8 0 ++ [0]) ++ [1, 2, 0xab, 0xcd] ++ [0, 0, 0, 0]

/-- Its parse result. -/
def segParsed : Transaction :=
  { isSegwit := true, nInputs := 1,
    inputs := [{ scriptLength := 0, scriptStart := 37,
                 raw := List.replicate 32 0 ++ [0, 0, 0, 0] ++ [0] ++ [255, 255, 255, 255],
                 witnesses := [[0xab, 0xcd]] }],
    nOutputs := 1,
    outputs := [{ scriptRaw := [], size := 9, valueRaw := List.replicate 8 0 }],
    offsetBeforeWitnesses := some 58, size := 66, raw := segTx }

/-- C6: a successful Transaction.from_bytes stores exactly the first `size`
bytes of the buffer as raw and consumes exactly `size` bytes; the success
requires the buffer to hold at least `size` bytes (a shorter buffer makes
the final Incomplete check, or an earlier read, fail). -/
theorem transaction_size_consistency :
    ∀ data tx, Transaction.fromBytes data = some tx →
      tx.raw = data.take tx.size ∧ tx.raw.length = tx.size ∧ tx.size ≤ data.length := by
  intro data tx h
  exact (fromBytes_master data tx h).1

/-- Closed witness for C6: `transaction_size_consistency` at the minimal
legacy transaction. -/
theorem transaction_size_consistency_witness :
    legacyParsed.raw = legacyTx.take legacyParsed.size ∧
    legacyParsed.raw.length = legacyParsed.size ∧
    legacyParsed.size ≤ legacyTx.length :=
  transaction_size_consistency legacyTx legacyParsed (by decide)

/-- C10: transaction parsing depends only on the bytes it consumes — parsing
any extension `data ++ t` of a successfully parsed buffer succeeds and
yields the identical Transaction value (hence identical size, raw, version,
locktime, txid, hash, vsize, inputs, outputs and witnesses, all of which are
functions of that value). -/
theorem transaction_parse_extension :
    ∀ data t tx, Transaction.fromBytes data = some tx →
      Transaction.fromBytes (data ++ t) = some tx := by
  intro data t tx h
  exact (fromBytes_master data tx h).2.2 t

/-- Closed witness for C10: the segwit example with three trailing junk
bytes parses to the identical transaction. -/
theorem transaction_parse_extension_witness :
    Transaction.fromBytes (segTx ++ [9, 9, 9]) = some segParsed :=
  transaction_parse_extension segTx [9, 9, 9] segParsed (by decide)

/-- C1: for a successfully parsed segwit transaction, txid is the
reversed-hex of the double-SHA256 (parametric `H`) of raw[0..4] ‖
raw[6..offset_before_witnesses] ‖ raw[size-4..size]; for a non-witness
transaction txid equals the full-serialization hash (the wtxid). -/
theorem txid_spec :
    ∀ (H : List Nat → List Nat) data tx, Transaction.fromBytes data = some tx →
      (∀ ob, tx.isSegwit = true → tx.offsetBeforeWitnesses = some ob →
        tx.txid H = some (hexstring (H (tx.raw.take 4
          ++ (tx.raw.drop 6).take (ob - 6) ++ tx.raw.drop (tx.size - 4))))) ∧
      (tx.isSegwit = false → tx.txid H = some (tx.hash H)) := by
  intro H data tx h
  obtain ⟨⟨hraw, hlen, hsz⟩, -, -⟩ := fromBytes_master data tx h
  constructor
  · intro ob hseg hob
    simp only [Transaction.txid, hseg, if_true, hob]
    rw [hlen]
  · intro hseg
    simp [Transaction.txid, hseg]

/-- Closed witness for C1: `txid_spec` (with H := id) at the segwit and
legacy examples. -/
theorem txid_spec_witness :
    segParsed.txid id = some (hexstring (id (segParsed.raw.take 4
      ++ (segParsed.raw.drop 6).take (58 - 6)
      ++ segParsed.raw.drop (segParsed.size - 4)))) ∧
    legacyParsed.txid id = some (legacyParsed.hash id) :=
  ⟨(txid_spec id segTx segParsed (by decide)).1 58 rfl rfl,
   (txid_spec id legacyTx legacyParsed (by decide)).2 rfl⟩

/-- C2: for every successfully parsed transaction, vsize =
ceil((stripped·3 + size)/4) where for a witness transaction stripped =
size - 2 - witness_bytes with witness_bytes = size - offset_before_witnesses
- 4, and for a non-witness transaction stripped = size, so vsize = size. -/
theorem vsize_spec :
    ∀ data tx, Transaction.fromBytes data = some tx →
      (∀ ob, tx.isSegwit = true → tx.offsetBeforeWitnesses = some ob →
        tx.vsize = some ((((tx.size : Int) - 2 - ((tx.size : Int) - ob - 4)) * 3
          + (tx.size : Int) + 3).ediv 4)) ∧
      (tx.isSegwit = false →
        tx.vsize = some (((tx.size : Int) * 3 + (tx.size : Int) + 3).ediv 4) ∧
        tx.vsize = some (tx.size : Int)) := by
  intro data tx h
  constructor
  · intro ob hseg hob
    simp only [Transaction.vsize, hseg, hob]
    norm_num
    congr 1
    ring
  · intro hseg
    have h1 : tx.vsize = some (tx.size : Int) := by
      simp [Transaction.vsize, hseg]
    refine ⟨?_, h1⟩
    rw [h1]
    congr 1
    have h4 : ((tx.size : Int) * 3 + (tx.size : Int) + 3) = 3 + (tx.size : Int) * 4 := by
      ring
    rw [h4]
    show (tx.size : Int) = (3 + (tx.size : Int) * 4) / 4
    rw [Int.add_mul_ediv_right 3 _ (by norm_num : (4 : Int) ≠ 0)]
    norm_num

/-- Closed witness for C2: `vsize_spec` at the segwit and legacy examples. -/
theorem vsize_spec_witness :
    segParsed.vsize = some ((((segParsed.size : Int) - 2
      - ((segParsed.size : Int) - 58 - 4)) * 3 + (segParsed.size : Int) + 3).ediv 4) ∧
    legacyParsed.vsize = some (legacyParsed.size : Int) :=
  ⟨(vsize_spec segTx segParsed (by decide)).1 58 rfl rfl,
   ((vsize_spec legacyTx legacyParsed (by decide)).2 rfl).2⟩

/-- Concrete operations list for the C7 witness: a 4-operation bare multisig
shape with M = 1 and N = 2. -/
def msOps : List ScriptItem :=
  [ScriptItem.num 1, ScriptItem.push (2 :: List.replicate 32 0),
   ScriptItem.num 2, ScriptItem.num 174]

/-- Closed witness for C7: `is_multisig_true_iff` applied at a concrete
operations list on which is_multisig evaluates to true. -/
theorem is_multisig_true_iff_witness :
    4 ≤ msOps.length ∧
    ∃ m, msOps[0]? = some (ScriptItem.num m) ∧
      (∀ j, 1 ≤ j → j < 1 + m →
        ∃ it, msOps[j]? = some it ∧ is_public_key it = true) ∧
      ∃ n, msOps[msOps.length - 2]? = some (ScriptItem.num n) ∧ m ≤ n ∧
        msOps[msOps.length - 1]? = some (ScriptItem.num 174) :=
  (is_multisig_true_iff msOps).mp (by decide)
